import Mathlib

/-!
Shallow embedding of the frame-to-reading decoding pipeline of
`analysis/laser_display_parser.py` (the body of `main`, lines 181-260,
together with `get_digits_lookup`).

A binary image is a list of rows, each row a list of booleans
(`true` = active/white pixel), mirroring the single-channel mask the
script works on.  NumPy/Python slicing (negative indices wrap, out of
range indices clamp, the end index is exclusive), `np.nonzero`-based
bounding boxes, the `cv2.morphologyEx` closing with a 2x2 kernel,
`cv2.countNonZero`, and Python `int()` parsing are modelled explicitly.

Machine floats of the original are modelled by exact rational/integer
arithmetic:
* `digit_widths = (weights * (one_row_len / 184.0)).astype(int)` is
  modelled as `w * L / 184` in truncating natural division.  The two
  agree for all image widths of realistic size: whenever `w * L / 184`
  is an integer, `23 ∣ L`, so `L / 184.0` is exactly representable,
  and otherwise the fractional part is at least `1/184`, far above the
  rounding error of the double computation.
* `white_count / float(area) > 0.30` is modelled as the exact rational
  comparison; the two agree because a rational with denominator `area`
  can never fall between the double `0.30` and the real `3/10`.
* the final `int(...) / 10000` is modelled as exact division in `ℚ`.

Exceptions (`ZeroDivisionError` from `white_count / float(area)` with a
zero area, `ValueError` from `int()`, `IndexError` from
`laser_reading[0]` on an empty list) are modelled with `Except`.
-/

namespace LaserDisplay

/-- A binary image: a list of rows, each row a list of pixels
(`true` = active). -/
abbrev Img : Type := List (List Bool)

/-- `shape[1]` of a NumPy array: the (common) row length.  On the ragged
lists of the model we take the first row's length; the images built by
the pipeline are rectangular. -/
def width (m : Img) : Nat := (m.headD []).length

/-- Pixel access with out-of-range reads defaulting to `false`. -/
def pxAt (m : Img) (r c : Nat) : Bool := (m.getD r []).getD c false

/-- Exceptions the script can raise while decoding one tick. -/
inductive PyErr where
  | zeroDiv
  | valueError
  | indexError
deriving DecidableEq

/-- Resolve one endpoint of a Python slice `l[a:b]` on a list of length
`n`: negative indices count from the end (clamped at 0), nonnegative
ones are clamped at `n`. -/
def sliceIdx (n : Nat) (i : Int) : Nat :=
  if i < 0 then ((n : Int) + i).toNat else min i.toNat n

/-- Python/NumPy slice `l[a:b]` (end exclusive). -/
def pySlice {α : Type} (l : List α) (a b : Int) : List α :=
  (l.take (sliceIdx l.length b)).drop (sliceIdx l.length a)

/-- Concatenate a list of lists (row-major flattening). -/
def catRows {α : Type} : List (List α) → List α
  | [] => []
  | l :: ls => l ++ catRows ls

/-- The `(i, j)` pairs contributed by row `i` to `np.nonzero`. -/
def activeCoordsRow (i : Nat) (row : List Bool) : List (Nat × Nat) :=
  (List.range row.length).filterMap fun j =>
    if row.getD j false then some (i, j) else none

/-- `np.nonzero(thres)` as a row-major list of coordinates of active
pixels. -/
def activeCoords (m : Img) : List (Nat × Nat) :=
  catRows ((List.range m.length).map fun i => activeCoordsRow i (m.getD i []))

/-- `len(roi[0]) > 0`: the mask has at least one active pixel. -/
def hasActive (m : Img) : Bool := !(activeCoords m).isEmpty

/-- Python `min` over a list of naturals (0 on the empty list, which the
script never queries). -/
def natMin : List Nat → Nat
  | [] => 0
  | x :: xs => xs.foldl Nat.min x

/-- Python `max` over a list of naturals (0 on the empty list, which the
script never queries). -/
def natMax : List Nat → Nat
  | [] => 0
  | x :: xs => xs.foldl Nat.max x

/-- `min(roi[0])`: smallest active row index. -/
def minRow (m : Img) : Nat := natMin ((activeCoords m).map Prod.fst)

/-- `max(roi[0])`: largest active row index. -/
def maxRow (m : Img) : Nat := natMax ((activeCoords m).map Prod.fst)

/-- `min(roi[1])`: smallest active column index. -/
def minCol (m : Img) : Nat := natMin ((activeCoords m).map Prod.snd)

/-- `max(roi[1])`: largest active column index. -/
def maxCol (m : Img) : Nat := natMax ((activeCoords m).map Prod.snd)

/-- `thres[min(roi[0]):max(roi[0]), min(roi[1]):max(roi[1])]`, line 186:
crop to the (half-open!) bounding box of the active pixels. -/
def cropBB (m : Img) : Img :=
  (pySlice m (minRow m : Int) (maxRow m : Int)).map fun row =>
    pySlice row (minCol m : Int) (maxCol m : Int)

/-- `thres[thres.shape[0]//4:]`, line 188: discard the top quarter. -/
def dropTopQuarter (m : Img) : Img := m.drop (m.length / 4)

/-- Pixel read for dilation: outside the image counts as inactive. -/
def pxD (m : Img) (i j : Int) : Bool :=
  if 0 ≤ i ∧ 0 ≤ j then (m.getD i.toNat []).getD j.toNat false else false

/-- Pixel read for erosion: outside the image counts as active
(OpenCV's `+inf` border for `erode`). -/
def pxE (m : Img) (w : Nat) (i j : Int) : Bool :=
  if 0 ≤ i ∧ i < (m.length : Int) ∧ 0 ≤ j ∧ j < (w : Int) then
    (m.getD i.toNat []).getD j.toNat false
  else true

/-- Dilation with the 2x2 all-ones kernel, anchor (1,1). -/
def dilate (m : Img) : Img :=
  (List.range m.length).map fun i =>
    (List.range (width m)).map fun j =>
      (pxD m ((i : Int) - 1) ((j : Int) - 1) || pxD m ((i : Int) - 1) (j : Int) ||
       pxD m (i : Int) ((j : Int) - 1) || pxD m (i : Int) (j : Int))

/-- Erosion with the 2x2 all-ones kernel, anchor (1,1). -/
def erode (m : Img) : Img :=
  (List.range m.length).map fun i =>
    (List.range (width m)).map fun j =>
      (pxE m (width m) ((i : Int) - 1) ((j : Int) - 1) && pxE m (width m) ((i : Int) - 1) (j : Int) &&
       pxE m (width m) (i : Int) ((j : Int) - 1) && pxE m (width m) (i : Int) (j : Int))

/-- `cv2.morphologyEx(thres, cv2.MORPH_CLOSE, np.ones((2,2)))`,
line 192: dilation followed by erosion. -/
def morphClose (m : Img) : Img := erode (dilate m)

/-- `digit_width_weights = np.array([15, 32, 35, 33, 34, 35])`, line 196. -/
def digit_width_weights : List Nat := [15, 32, 35, 33, 34, 35]

/-- `digit_widths = (digit_width_weights * mult).astype(int)` with
`mult = one_row_len / sum(digit_width_weights)`, lines 198/200, in the
exact-arithmetic model (truncating division). -/
def digitWidths (L : Nat) : List Nat :=
  digit_width_weights.map fun w => w * L / digit_width_weights.sum

/-- `space = one_row_len // 25`, line 199. -/
def spaceOf (L : Nat) : Nat := L / 25

/-- `start_i = sum(digit_widths[:i])` plus `space * 2` for `i != 0`,
lines 205-206. -/
def startOff (L i : Nat) : Nat :=
  ((digitWidths L).take i).sum + (if i = 0 then 0 else 2 * spaceOf L)

/-- `end_i = sum(digit_widths[:i+1]) + space`, line 207. -/
def endOff (L i : Nat) : Nat := ((digitWidths L).take (i + 1)).sum + spaceOf L

/-- The loop of lines 203-208: the six digit cells
`thres[:, start_i:end_i]`. -/
def digitCells (m : Img) : List Img :=
  (List.range 6).map fun i =>
    m.map fun row => (row.take (endOff (width m) i)).drop (startOff (width m) i)

/-- `cv2.countNonZero(segROI)`: number of active pixels. -/
def countActive (m : Img) : Nat := (m.map fun row => row.count true).sum

/-- `digit[start_y:end_y, start_x:end_x]`: 2-D NumPy slice. -/
def subImg (m : Img) (y0 y1 x0 x1 : Int) : Img :=
  (pySlice m y0 y1).map fun row => pySlice row x0 x1

/-- The seven segment rectangles of lines 218-226, as
`((start_x, start_y), (end_x, end_y))`, in the order
top, top-left, top-right, center, bottom-left, bottom-right, bottom.
`s = digit.shape[1] // 3` is the segment thickness of line 217. -/
def zoneRects (h w : Nat) : List ((Int × Int) × (Int × Int)) :=
  let s : Int := (w / 3 : Nat)
  let H : Int := h
  let W : Int := w
  [ ((s, 0), (W - s, s + 1)),
    ((0, s), (s, H / 2 - s + 1)),
    ((W - s - 1, s), (W, H / 2 - s + 1)),
    ((s, H / 2 - s / 2), (W - s, H / 2 + s / 2 + 1)),
    ((0, H / 2 + s), (s, H - s)),
    ((W - s - 1, H / 2 + s), (W, H - s)),
    ((s, H - s - 1), (W - s, H)) ]

/-- `area = (end_x - start_x) * (end_y - start_y)`, line 238. -/
def zoneArea (z : (Int × Int) × (Int × Int)) : Int :=
  (z.2.1 - z.1.1) * (z.2.2 - z.1.2)

/-- `white_count / float(area) > 0.30`, line 242, in the exact model.
For a negative area the ratio is nonpositive, hence `false`, exactly as
in Python; a zero area is guarded by the caller (it raises). -/
def fillOn (wc : Nat) (a : Int) : Bool :=
  decide ((wc : ℚ) / (a : ℚ) > 3 / 10)

/-- Lines 214-243: sample the seven segment zones of one digit cell.
Python evaluates `white_count / float(area)` with no guard, so a zone of
zero area raises `ZeroDivisionError` (`cv2.countNonZero` itself accepts
the empty slice and returns 0). -/
def sampleDigit (cell : Img) : Except PyErr (List Bool) :=
  let h := cell.length
  let w := width cell
  let zs := zoneRects h w
  if zs.any fun z => zoneArea z == 0 then Except.error PyErr.zeroDiv
  else Except.ok
    (zs.map fun z => fillOn (countActive (subImg cell z.1.2 z.2.2 z.1.1 z.2.1)) (zoneArea z))

/-- A segment pattern: the classifier's 7-tuple key. -/
abbrev Pat : Type := Bool × Bool × Bool × Bool × Bool × Bool × Bool

/-- The table of `get_digits_lookup`, lines 120-132 (`1` = `true`). -/
def DIGITS_LOOKUP : List (Pat × Char) :=
  [ ((true, true, true, false, true, true, true), '0'),
    ((false, false, true, false, false, true, false), '1'),
    ((true, false, true, true, true, false, true), '2'),
    ((true, false, true, true, false, true, true), '3'),
    ((false, true, true, true, false, true, false), '4'),
    ((true, true, false, true, false, true, true), '5'),
    ((true, true, false, true, true, true, true), '6'),
    ((true, false, true, false, false, true, false), '7'),
    ((true, true, true, true, true, true, true), '8'),
    ((true, true, true, true, false, true, true), '9'),
    ((false, false, false, true, false, false, false), '-') ]

/-- Lines 246-249: exact dictionary lookup; `None` when the pattern has
no entry. -/
def classify (p : Pat) : Option Char :=
  (DIGITS_LOOKUP.find? fun e => decide (e.1 = p)).map Prod.snd

/-- `tuple(on_segments)` of line 246 from the sampled zone list. -/
def patOfList (l : List Bool) : Pat :=
  (l.getD 0 false, l.getD 1 false, l.getD 2 false,
   l.getD 3 false, l.getD 4 false, l.getD 5 false, l.getD 6 false)

/-- Sample one digit cell and classify its pattern (lines 212-251 for a
single cell). -/
def decodeCell (cell : Img) : Except PyErr (Option Char) :=
  (sampleDigit cell).map fun pat => classify (patOfList pat)

/-- Value of a string of decimal digits (most significant first). -/
def digitsVal (cs : List Char) : Nat :=
  cs.foldl (fun a c => 10 * a + (c.toNat - '0'.toNat)) 0

/-- Python `int(s)` on strings over the alphabet the decoder can emit
(decimal digits and `-`): an optional leading minus sign followed by at
least one digit; anything else raises `ValueError` (here: `none`). -/
def pyInt (cs : List Char) : Option Int :=
  match cs with
  | [] => none
  | c :: rest =>
    if c = '-' then
      if rest ≠ [] ∧ rest.all Char.isDigit then some (-(digitsVal rest : Int)) else none
    else
      if (c :: rest).all Char.isDigit then some ((digitsVal (c :: rest) : Int)) else none

/-- Line 254: `if laser_reading[0] == None: laser_reading.pop(0)` —
drop the first symbol exactly when it is `None`. -/
def trimLeading (l : List (Option Char)) : List (Option Char) :=
  match l with
  | none :: rest => rest
  | other => other

/-- Lines 253-260: the reading assembly step on the list of six decoded
symbols.  `laser_reading[0]` on an empty list would raise `IndexError`;
with a `None` remaining, the tick's reading is `None` (unreadable);
otherwise `int(''.join(...)) / 10000`, where `int` raises `ValueError`
on a malformed string. -/
def assembleSymbols (l : List (Option Char)) : Except PyErr (Option ℚ) :=
  match l with
  | [] => Except.error PyErr.indexError
  | _ :: _ =>
    let t := trimLeading l
    if none ∈ t then Except.ok none
    else
      match pyInt (t.filterMap id) with
      | some n => Except.ok (some ((n : ℚ) / 10000))
      | none => Except.error PyErr.valueError

/-- The whole per-tick pipeline on a binary mask, lines 181-260:
bounding-box crop and top-quarter discard (only when some pixel is
active), morphological closing, partition into six digit cells,
sampling and classification of each cell, and reading assembly. -/
def assemble (m : Img) : Except PyErr (Option ℚ) :=
  let strip := morphClose (if hasActive m then dropTopQuarter (cropBB m) else m)
  ((digitCells strip).mapM sampleDigit) >>= fun pats =>
    assembleSymbols (pats.map fun pat => classify (patOfList pat))

/-- An all-inactive mask of the given dimensions. -/
def allZeroImg (h w : Nat) : Img := List.replicate h (List.replicate w false)

/-- A concrete 5x4 digit cell used to exercise the sampler (all seven
zones have nonzero area: `s = 1`). -/
def demoCell : Img :=
  [[true, true, false, true],
   [false, true, true, false],
   [true, false, false, true],
   [false, false, true, false],
   [true, true, false, false]]

/-! ## Claim C1: the classifier is an exact 11-entry lookup -/

set_option maxRecDepth 4096 in
/-- Claim C1: for every 7-tuple of booleans, `classify` returns exactly the
symbol given by the 11-row lookup table on the 11 table patterns, and
`none` (Unmatched) on every 7-tuple that is not a key of the table;
matching is exact key equality. -/
theorem classify_exact_lookup :
    (classify (true, true, true, false, true, true, true) = some '0') ∧
    (classify (false, false, true, false, false, true, false) = some '1') ∧
    (classify (true, false, true, true, true, false, true) = some '2') ∧
    (classify (true, false, true, true, false, true, true) = some '3') ∧
    (classify (false, true, true, true, false, true, false) = some '4') ∧
    (classify (true, true, false, true, false, true, true) = some '5') ∧
    (classify (true, true, false, true, true, true, true) = some '6') ∧
    (classify (true, false, true, false, false, true, false) = some '7') ∧
    (classify (true, true, true, true, true, true, true) = some '8') ∧
    (classify (true, true, true, true, false, true, true) = some '9') ∧
    (classify (false, false, false, true, false, false, false) = some '-') ∧
    (∀ p : Pat, p ∉ DIGITS_LOOKUP.map Prod.fst → classify p = none) := by
  decide

/-- Witness for C1: the all-off pattern is not a key of the table and is
classified as Unmatched. -/
theorem classify_exact_lookup_witness :
    ((false, false, false, false, false, false, false) : Pat) ∉ DIGITS_LOOKUP.map Prod.fst ∧
    classify (false, false, false, false, false, false, false) = none :=
  ⟨by decide,
   classify_exact_lookup.2.2.2.2.2.2.2.2.2.2.2
     (false, false, false, false, false, false, false) (by decide)⟩

/-! ## Claim C3: the sampler and zero-area zones -/

/-- Claim C3 (refuting evaluation): on a 3-row, 1-column digit cell the
segment thickness is `s = 1 // 3 = 0`, so the top-left zone
`((0, s), (s, h//2 - s + 1))` has `end_x - start_x = 0` and hence area
`0`; `white_count / float(area)` then raises `ZeroDivisionError` — the
sampler does divide by zero on degenerate cells, no zone is treated as
"off". -/
theorem sampler_zero_area_zone_raises :
    sampleDigit [[false], [false], [false]] = Except.error PyErr.zeroDiv := by
  rfl

/-! ## Claim C5: all-zero masks -/

/-- Claim C5 (refuting evaluation): on the 3x3 all-zero mask no crop is
taken (no active pixels), the strip width is 3, all six digit cells get
width 0 (`15*3//184 = 0`, ..., `space = 0`), and the first cell's top
zone `((0, 0), (w - s, s + 1)) = ((0, 0), (0, 1))` has area 0: the tick
raises `ZeroDivisionError` instead of returning the unreadable
marker. -/
theorem assemble_allzero_tiny_mask_raises :
    assemble (allZeroImg 3 3) = Except.error PyErr.zeroDiv := by
  rfl

/-! ## Claim C2: a non-leading minus symbol -/

/-- Counterexample to C2: for the decoded symbol sequence
`0 - 1 2 3 4` (a `-` in the second slot, nothing Unmatched) the
assembly step raises `ValueError` from `int("0-1234")`; it does not
return the global unreadable marker `None`. -/
theorem assembleSymbols_nonleading_minus_cex :
    assembleSymbols [some '0', some '-', some '1', some '2', some '3', some '4'] =
      Except.error PyErr.valueError ∧
    assembleSymbols [some '0', some '-', some '1', some '2', some '3', some '4'] ≠
      Except.ok none :=
  ⟨rfl, fun h => Except.noConfusion h⟩

/-- With no `None` in the list, `filterMap id` is position-preserving. -/
theorem filterMap_id_noNone {t : List (Option Char)} (h : none ∉ t) (k : Nat) :
    (t.filterMap id).getD k ' ' = (t.getD k none).getD ' ' := by
  induction t generalizing k with
  | nil => simp
  | cons o t' ih =>
    match o with
    | none => exact absurd (List.mem_cons_self _ _) h
    | some c =>
      have h' : none ∉ t' := fun hm => h (List.mem_cons_of_mem _ hm)
      match k with
      | 0 => simp
      | k + 1 => simpa using ih h' k

/-- A `-` at a non-leading position makes `int()` fail. -/
theorem pyInt_none_of_dash {cs : List Char} {k : Nat} (hk : 0 < k)
    (h : cs.getD k ' ' = '-') : pyInt cs = none := by
  match cs, k with
  | [], k => exact absurd h (by simp)
  | c :: rest, 0 => exact absurd hk (by decide)
  | c :: rest, k + 1 =>
    have h' : rest.getD k ' ' = '-' := by simpa using h
    have hmem : '-' ∈ rest := by
      rcases hx : rest[k]? with _ | x
      · rw [List.getD_eq_getElem?_getD, hx] at h'
        exact absurd h' (by decide)
      · rw [List.getD_eq_getElem?_getD, hx] at h'
        simp at h'
        exact h' ▸ List.getElem?_mem hx
    have hall : rest.all Char.isDigit = false := by
      rcases hb : rest.all Char.isDigit with _ | _
      · rfl
      · rw [List.all_eq_true] at hb
        have := hb '-' hmem
        exact absurd this (by decide)
    by_cases hc : c = '-' <;> simp [pyInt, hc, hall]

/-- Claim C2 (amended): whenever the six decoded symbols contain, after
the leading-Unmatched trim, the `-` symbol at a non-leading position,
the tick never yields a number: it is `None` (unreadable) when some
remaining symbol is Unmatched, and otherwise `int()` on the
concatenated string raises `ValueError`. -/
theorem assembleSymbols_nonleading_minus (l : List (Option Char)) (k : Nat)
    (h6 : l.length = 6) (hk : 0 < k)
    (hdash : (trimLeading l).getD k none = some '-') :
    assembleSymbols l =
      if none ∈ trimLeading l then Except.ok none
      else Except.error PyErr.valueError := by
  match l with
  | [] => simp at h6
  | x :: xs =>
    by_cases hmem : none ∈ trimLeading (x :: xs)
    · simp [assembleSymbols, hmem]
    · have hfm : ((trimLeading (x :: xs)).filterMap id).getD k ' ' = '-' := by
        rw [filterMap_id_noNone hmem k, hdash]
        rfl
      have hpy := pyInt_none_of_dash hk hfm
      simp [assembleSymbols, hmem, hpy]

/-- Witness for C2 (amended): on symbols `0 - 1 2 3 4` the assembly
raises `ValueError`. -/
theorem assembleSymbols_nonleading_minus_witness :
    assembleSymbols [some '0', some '-', some '1', some '2', some '3', some '4'] =
      if none ∈ trimLeading [some '0', some '-', some '1', some '2', some '3', some '4'] then
        Except.ok none
      else Except.error PyErr.valueError :=
  assembleSymbols_nonleading_minus
    [some '0', some '-', some '1', some '2', some '3', some '4'] 1
    rfl (by decide) (by decide)

/-! ## Claim C9: value of an all-digit reading -/

/-- `filterMap id` undoes `map some`. -/
theorem filterMap_id_mapSome (ds : List Char) : (ds.map some).filterMap id = ds := by
  induction ds with
  | nil => rfl
  | cons c ds ih => simp [ih]

/-- `int()` on a nonempty all-digit string returns its value. -/
theorem pyInt_digits {ds : List Char} (hne : ds ≠ [])
    (hds : ds.all Char.isDigit = true) : pyInt ds = some ((digitsVal ds : Int)) := by
  match ds with
  | [] => exact absurd rfl hne
  | c :: rest =>
    have hc : ¬(c = '-') := by
      intro hEq
      have : c.isDigit = true := by
        have := List.all_eq_true.mp hds c (List.mem_cons_self _ _)
        simpa using this
      rw [hEq] at this
      exact absurd this (by decide)
    simp [pyInt, hc, hds]

/-- `int()` on `-` followed by a nonempty all-digit string returns the
negated value. -/
theorem pyInt_neg_digits {ds : List Char} (hne : ds ≠ [])
    (hds : ds.all Char.isDigit = true) :
    pyInt ('-' :: ds) = some (-(digitsVal ds : Int)) := by
  simp [pyInt, hne, hds]

/-- Claim C9: for every six-symbol decoded sequence in which, after the
leading trim, every remaining symbol is a digit optionally led by `-`,
the assembler returns the integer value of the concatenated symbol
string divided by exactly 10000. -/
theorem assembleSymbols_digits_value (l : List (Option Char)) (ds : List Char)
    (h6 : l.length = 6) (hds : ds.all Char.isDigit = true) :
    (trimLeading l = ds.map some →
      assembleSymbols l = Except.ok (some (((digitsVal ds : Int) : ℚ) / 10000))) ∧
    (trimLeading l = some '-' :: ds.map some →
      assembleSymbols l = Except.ok (some (((-(digitsVal ds : Int) : Int) : ℚ) / 10000))) := by
  match l with
  | [] => simp at h6
  | x :: xs =>
    have hxs : xs.length = 5 := by simpa using h6
    have hlen : 5 ≤ (trimLeading (x :: xs)).length := by
      cases x <;> simp [trimLeading, hxs]
    constructor
    · intro heq
      have hn : none ∉ trimLeading (x :: xs) := by
        rw [heq]
        simp
      have hdne : ds ≠ [] := by
        rw [heq] at hlen
        simp at hlen
        intro hnil
        rw [hnil] at hlen
        simp at hlen
      have hfm : (trimLeading (x :: xs)).filterMap id = ds := by
        rw [heq, filterMap_id_mapSome]
      simp [assembleSymbols, hn, hfm, pyInt_digits hdne hds]
    · intro heq
      have hn : none ∉ trimLeading (x :: xs) := by
        rw [heq]
        simp
      have hdne : ds ≠ [] := by
        rw [heq] at hlen
        simp at hlen
        intro hnil
        rw [hnil] at hlen
        simp at hlen
      have hfm : (trimLeading (x :: xs)).filterMap id = '-' :: ds := by
        rw [heq]
        simp [filterMap_id_mapSome ds]
      simp [assembleSymbols, hn, hfm, pyInt_neg_digits hdne hds]

/-- Witness for C9: the sequence `Unmatched 0 1 2 3 4` decodes to
`1234 / 10000`. -/
theorem assembleSymbols_digits_value_witness :
    assembleSymbols [none, some '0', some '1', some '2', some '3', some '4'] =
      Except.ok (some (((digitsVal ['0', '1', '2', '3', '4'] : Int) : ℚ) / 10000)) :=
  (assembleSymbols_digits_value
    [none, some '0', some '1', some '2', some '3', some '4']
    ['0', '1', '2', '3', '4'] rfl (by decide)).1 rfl

/-! ## Claims C7 and C10: the six-cell partition -/

/-- Partial sums of a list as sums over `Finset.range`. -/
theorem take_sum_eq_range (l : List Nat) :
    ∀ i, i ≤ l.length → (l.take i).sum = ∑ k ∈ Finset.range i, l.getD k 0 := by
  intro i
  induction i with
  | zero => simp
  | succ i ih =>
    intro h
    have hi : i < l.length := Nat.lt_of_succ_le h
    rw [List.take_succ, List.sum_append, ih (Nat.le_of_lt hi),
      Finset.sum_range_succ]
    have : l[i]? = some l[i] := List.getElem?_eq_getElem hi
    simp [this, List.getD_eq_getElem?_getD]

/-- Partial sums of a list of naturals are monotone. -/
theorem take_sum_mono (l : List Nat) {a b : Nat} (h : a ≤ b) :
    (l.take a).sum ≤ (l.take b).sum := by
  have h1 : l.take a = (l.take b).take a := by
    rw [List.take_take, Nat.min_eq_left h]
  rw [h1]
  conv_rhs => rw [← List.take_append_drop a (l.take b)]
  rw [List.sum_append]
  exact Nat.le_add_right _ _

/-- The truncated, scaled widths, entrywise. -/
theorem digitWidths_getD (L k : Nat) (h : k < 6) :
    (digitWidths L).getD k 0 =
      digit_width_weights.getD k 0 * L / digit_width_weights.sum := by
  interval_cases k <;> rfl

/-- `start_i` as a closed formula over the weights. -/
theorem startOff_eq (L i : Nat) (h : i ≤ 6) :
    startOff L i =
      (∑ k ∈ Finset.range i,
        digit_width_weights.getD k 0 * L / digit_width_weights.sum) +
      (if i = 0 then 0 else 2 * (L / 25)) := by
  unfold startOff spaceOf
  rw [take_sum_eq_range _ i (by simpa [digitWidths, digit_width_weights] using h)]
  refine congrArg (· + _) (Finset.sum_congr rfl fun k hk => ?_)
  exact digitWidths_getD L k (lt_of_lt_of_le (Finset.mem_range.mp hk) h)

/-- `end_i` as a closed formula over the weights. -/
theorem endOff_eq (L i : Nat) (h : i < 6) :
    endOff L i =
      (∑ k ∈ Finset.range (i + 1),
        digit_width_weights.getD k 0 * L / digit_width_weights.sum) + L / 25 := by
  unfold endOff spaceOf
  rw [take_sum_eq_range _ (i + 1) (by simp [digitWidths, digit_width_weights]; omega)]
  refine congrArg (· + _) (Finset.sum_congr rfl fun k hk => ?_)
  refine digitWidths_getD L k ?_
  have := Finset.mem_range.mp hk
  omega

/-- Claim C7: for every display strip, the segmenter produces exactly 6
cells using the weights `[15, 32, 35, 33, 34, 35]`, `space =
total_width // 25` and truncated scaled widths: cell `i` is the column
slice starting at the cumulative scaled width of cells `0..i-1` plus
`2*space` for `i > 0`, and ending at the cumulative scaled width
through cell `i` plus one `space`. -/
theorem digitCells_partition (m : Img) (i : Nat) (hi : i < 6) :
    (digitCells m).length = 6 ∧
    (digitCells m).getD i [] =
      m.map fun row =>
        (row.take ((∑ k ∈ Finset.range (i + 1),
            digit_width_weights.getD k 0 * width m / digit_width_weights.sum) +
            width m / 25)).drop
          ((∑ k ∈ Finset.range i,
            digit_width_weights.getD k 0 * width m / digit_width_weights.sum) +
            if i = 0 then 0 else 2 * (width m / 25)) := by
  constructor
  · simp [digitCells]
  · have h1 : (digitCells m).getD i [] =
        m.map fun row =>
          (row.take (endOff (width m) i)).drop (startOff (width m) i) := by
      unfold digitCells
      rw [List.getD_eq_getElem?_getD, List.getElem?_map, List.getElem?_range hi]
      rfl
    rw [h1, startOff_eq (width m) i (Nat.le_of_lt hi), endOff_eq (width m) i hi]

/-- Witness for C7: the second cell of a 2x26 strip spans columns 4-6
(widths `[2,4,4,4,4,4]`, `space = 1`). -/
theorem digitCells_partition_witness :
    (digitCells (allZeroImg 2 26)).length = 6 ∧
    (digitCells (allZeroImg 2 26)).getD 1 [] =
      [[false, false, false], [false, false, false]] :=
  ⟨(digitCells_partition (allZeroImg 2 26) 1 (by decide)).1,
   ((digitCells_partition (allZeroImg 2 26) 1 (by decide)).2).trans (by decide)⟩

/-- Claim C10: for every strip width the 6 cells are ordered and
pairwise disjoint: cell `i`'s end offset never exceeds cell `j`'s start
offset for `i < j`, and no column index lies in two cells. -/
theorem digitCells_disjoint (L i j c : Nat) (hij : i < j) (_hj : j < 6) :
    endOff L i ≤ startOff L j ∧
    ¬(startOff L i ≤ c ∧ c < endOff L i ∧ startOff L j ≤ c ∧ c < endOff L j) := by
  have hle : endOff L i ≤ startOff L j := by
    unfold endOff startOff
    rw [if_neg (by omega : ¬(j = 0))]
    have h1 : ((digitWidths L).take (i + 1)).sum ≤ ((digitWidths L).take j).sum :=
      take_sum_mono _ hij
    omega
  refine ⟨hle, ?_⟩
  rintro ⟨_, h2, h3, _⟩
  omega

/-- Witness for C10: at strip width 184, cell 0 ends before cell 1
starts, and column 10 is not shared. -/
theorem digitCells_disjoint_witness :
    endOff 184 0 ≤ startOff 184 1 ∧
    ¬(startOff 184 0 ≤ 10 ∧ 10 < endOff 184 0 ∧
      startOff 184 1 ≤ 10 ∧ 10 < endOff 184 1) :=
  digitCells_disjoint 184 0 1 10 (by decide) (by decide)

/-! ## Claim C8: the sampler's zone geometry and threshold -/

/-- Claim C8: on every digit cell whose seven zones all have nonzero
area (the zero-area case is claim C3), the sampler uses segment
thickness `s = w // 3`, the seven zone rectangles of the fixed layout —
each corner/edge zone inset by `s` from the relevant cell edges, the
center zone spanning rows `h//2 - s//2` through `h//2 + s//2` — and
marks a zone "on" iff its active-pixel count divided by its area is
strictly greater than `0.30`. -/
theorem sampleDigit_pattern_formula (cell : Img)
    (hz : ∀ z ∈ zoneRects cell.length (width cell), zoneArea z ≠ 0) :
    sampleDigit cell =
      Except.ok
        (let H : Int := (cell.length : Int)
         let W : Int := (width cell : Int)
         let s : Int := ((width cell / 3 : Nat) : Int)
         [decide ((countActive (subImg cell 0 (s + 1) s (W - s)) : ℚ) /
            ((((W - s) - s) * ((s + 1) - 0) : Int) : ℚ) > 3 / 10),
         decide ((countActive (subImg cell s (H / 2 - s + 1) 0 s) : ℚ) /
            (((s - 0) * ((H / 2 - s + 1) - s) : Int) : ℚ) > 3 / 10),
         decide ((countActive (subImg cell s (H / 2 - s + 1) (W - s - 1) W) : ℚ) /
            (((W - (W - s - 1)) * ((H / 2 - s + 1) - s) : Int) : ℚ) > 3 / 10),
         decide ((countActive (subImg cell (H / 2 - s / 2) (H / 2 + s / 2 + 1) s (W - s)) : ℚ) /
            ((((W - s) - s) * ((H / 2 + s / 2 + 1) - (H / 2 - s / 2)) : Int) : ℚ) > 3 / 10),
         decide ((countActive (subImg cell (H / 2 + s) (H - s) 0 s) : ℚ) /
            (((s - 0) * ((H - s) - (H / 2 + s)) : Int) : ℚ) > 3 / 10),
         decide ((countActive (subImg cell (H / 2 + s) (H - s) (W - s - 1) W) : ℚ) /
            (((W - (W - s - 1)) * ((H - s) - (H / 2 + s)) : Int) : ℚ) > 3 / 10),
         decide ((countActive (subImg cell (H - s - 1) H s (W - s)) : ℚ) /
            ((((W - s) - s) * (H - (H - s - 1)) : Int) : ℚ) > 3 / 10)]) := by
  have hany : ((zoneRects cell.length (width cell)).any fun z => zoneArea z == 0) = false := by
    rw [List.any_eq_false]
    intro z hzmem
    simpa using hz z hzmem
  simp only [sampleDigit, hany, Bool.false_eq_true, if_false]
  rfl

/-- Witness for C8: the 5x4 demo cell (where all seven zones have
nonzero area, discharged by computation) samples to the fill-ratio
pattern of the formula. -/
theorem sampleDigit_pattern_formula_witness :
    sampleDigit demoCell =
      Except.ok
        (let H : Int := (demoCell.length : Int)
         let W : Int := (width demoCell : Int)
         let s : Int := ((width demoCell / 3 : Nat) : Int)
         [decide ((countActive (subImg demoCell 0 (s + 1) s (W - s)) : ℚ) /
            ((((W - s) - s) * ((s + 1) - 0) : Int) : ℚ) > 3 / 10),
         decide ((countActive (subImg demoCell s (H / 2 - s + 1) 0 s) : ℚ) /
            (((s - 0) * ((H / 2 - s + 1) - s) : Int) : ℚ) > 3 / 10),
         decide ((countActive (subImg demoCell s (H / 2 - s + 1) (W - s - 1) W) : ℚ) /
            (((W - (W - s - 1)) * ((H / 2 - s + 1) - s) : Int) : ℚ) > 3 / 10),
         decide ((countActive (subImg demoCell (H / 2 - s / 2) (H / 2 + s / 2 + 1) s (W - s)) : ℚ) /
            ((((W - s) - s) * ((H / 2 + s / 2 + 1) - (H / 2 - s / 2)) : Int) : ℚ) > 3 / 10),
         decide ((countActive (subImg demoCell (H / 2 + s) (H - s) 0 s) : ℚ) /
            (((s - 0) * ((H - s) - (H / 2 + s)) : Int) : ℚ) > 3 / 10),
         decide ((countActive (subImg demoCell (H / 2 + s) (H - s) (W - s - 1) W) : ℚ) /
            (((W - (W - s - 1)) * ((H - s) - (H / 2 + s)) : Int) : ℚ) > 3 / 10),
         decide ((countActive (subImg demoCell (H - s - 1) H s (W - s)) : ℚ) /
            ((((W - s) - s) * (H - (H - s - 1)) : Int) : ℚ) > 3 / 10)]) :=
  sampleDigit_pattern_formula demoCell (by decide)

/-! ## Claim C4: the bounding-box crop -/

/-- Membership in a row-major flattening. -/
theorem mem_catRows {α : Type} {x : α} :
    ∀ {ls : List (List α)}, x ∈ catRows ls ↔ ∃ l, l ∈ ls ∧ x ∈ l := by
  intro ls
  induction ls with
  | nil => simp [catRows]
  | cons hd tl ih => simp [catRows, ih]

/-- An active read through `pxAt` is in range on both axes. -/
theorem pxAt_row_bound {m : Img} {r c : Nat} (h : pxAt m r c = true) :
    r < m.length ∧ c < (m.getD r []).length := by
  constructor
  · by_contra hr
    have hrow : m.getD r [] = [] := by
      rw [List.getD_eq_getElem?_getD, List.getElem?_eq_none (Nat.le_of_not_lt hr)]
      rfl
    unfold pxAt at h
    rw [hrow] at h
    simp at h
  · by_contra hc
    unfold pxAt at h
    rw [List.getD_eq_getElem?_getD (m.getD r []),
      List.getElem?_eq_none (Nat.le_of_not_lt hc)] at h
    simp at h

/-- `np.nonzero` lists exactly the active pixels. -/
theorem mem_activeCoords {m : Img} {r c : Nat} :
    (r, c) ∈ activeCoords m ↔ pxAt m r c = true := by
  unfold activeCoords
  rw [mem_catRows]
  constructor
  · rintro ⟨l, hl, hx⟩
    rw [List.mem_map] at hl
    obtain ⟨i, hi, rfl⟩ := hl
    unfold activeCoordsRow at hx
    rw [List.mem_filterMap] at hx
    obtain ⟨j, _, hx⟩ := hx
    by_cases hb : (m.getD i []).getD j false = true
    · rw [if_pos hb] at hx
      obtain ⟨rfl, rfl⟩ := Prod.mk.injEq .. ▸ Option.some.injEq .. ▸ hx
      exact hb
    · rw [if_neg hb] at hx
      exact absurd hx (by simp)
  · intro h
    obtain ⟨hr, hc⟩ := pxAt_row_bound h
    refine ⟨activeCoordsRow r (m.getD r []), List.mem_map.mpr ⟨r, List.mem_range.mpr hr, rfl⟩, ?_⟩
    unfold activeCoordsRow
    rw [List.mem_filterMap]
    refine ⟨c, List.mem_range.mpr hc, ?_⟩
    unfold pxAt at h
    rw [if_pos h]

/-- A left fold by `Nat.min` is below its initial value. -/
theorem foldl_min_le (xs : List Nat) (a : Nat) : xs.foldl Nat.min a ≤ a := by
  induction xs generalizing a with
  | nil => exact Nat.le_refl a
  | cons x xs ih => exact Nat.le_trans (ih (Nat.min a x)) (Nat.min_le_left a x)

/-- A left fold by `Nat.min` is below every list element. -/
theorem foldl_min_le_of_mem {xs : List Nat} {x : Nat} (h : x ∈ xs) :
    ∀ a, xs.foldl Nat.min a ≤ x := by
  induction xs with
  | nil => exact absurd h (List.not_mem_nil x)
  | cons y ys ih =>
    intro a
    rcases List.mem_cons.mp h with rfl | h'
    · exact Nat.le_trans (foldl_min_le ys (Nat.min a x)) (Nat.min_le_right a x)
    · exact ih h' (Nat.min a y)

/-- `natMin` bounds every element from below. -/
theorem natMin_le {l : List Nat} {x : Nat} (h : x ∈ l) : natMin l ≤ x := by
  match l with
  | [] => exact absurd h (List.not_mem_nil x)
  | y :: ys =>
    rcases List.mem_cons.mp h with rfl | h'
    · exact foldl_min_le ys x
    · exact foldl_min_le_of_mem h' y

/-- A left fold by `Nat.max` is above its initial value. -/
theorem le_foldl_max (xs : List Nat) (a : Nat) : a ≤ xs.foldl Nat.max a := by
  induction xs generalizing a with
  | nil => exact Nat.le_refl a
  | cons x xs ih => exact Nat.le_trans (Nat.le_max_left a x) (ih (Nat.max a x))

/-- A left fold by `Nat.max` is above every list element. -/
theorem le_foldl_max_of_mem {xs : List Nat} {x : Nat} (h : x ∈ xs) :
    ∀ a, x ≤ xs.foldl Nat.max a := by
  induction xs with
  | nil => exact absurd h (List.not_mem_nil x)
  | cons y ys ih =>
    intro a
    rcases List.mem_cons.mp h with rfl | h'
    · exact Nat.le_trans (Nat.le_max_right a x) (le_foldl_max ys (Nat.max a x))
    · exact ih h' (Nat.max a y)

/-- `natMax` bounds every element from above. -/
theorem le_natMax {l : List Nat} {x : Nat} (h : x ∈ l) : x ≤ natMax l := by
  match l with
  | [] => exact absurd h (List.not_mem_nil x)
  | y :: ys =>
    rcases List.mem_cons.mp h with rfl | h'
    · exact le_foldl_max ys x
    · exact le_foldl_max_of_mem h' y

/-- A fold by `Nat.max` stays below a common upper bound. -/
theorem foldl_max_le {xs : List Nat} {B : Nat} (h : ∀ x ∈ xs, x ≤ B) :
    ∀ a, a ≤ B → xs.foldl Nat.max a ≤ B := by
  induction xs with
  | nil => exact fun a ha => ha
  | cons y ys ih =>
    intro a ha
    exact ih (fun x hx => h x (List.mem_cons_of_mem _ hx))
      (Nat.max a y) (Nat.max_le.mpr ⟨ha, h y (List.mem_cons_self _ _)⟩)

/-- `natMax` stays below a common upper bound. -/
theorem natMax_le {l : List Nat} {B : Nat} (h : ∀ x ∈ l, x ≤ B) : natMax l ≤ B := by
  match l with
  | [] => exact Nat.zero_le B
  | y :: ys =>
    exact foldl_max_le (fun x hx => h x (List.mem_cons_of_mem _ hx)) y (h y (List.mem_cons_self _ _))

/-- Every active pixel lies between the extremal active coordinates. -/
theorem active_bounds {m : Img} {r c : Nat} (h : pxAt m r c = true) :
    minRow m ≤ r ∧ r ≤ maxRow m ∧ minCol m ≤ c ∧ c ≤ maxCol m := by
  have hmem : (r, c) ∈ activeCoords m := mem_activeCoords.mpr h
  have h1 : r ∈ (activeCoords m).map Prod.fst := List.mem_map.mpr ⟨(r, c), hmem, rfl⟩
  have h2 : c ∈ (activeCoords m).map Prod.snd := List.mem_map.mpr ⟨(r, c), hmem, rfl⟩
  exact ⟨natMin_le h1, le_natMax h1, natMin_le h2, le_natMax h2⟩

/-- A mask with an active pixel has a nonempty coordinate list. -/
theorem exists_active {m : Img} (ha : hasActive m = true) :
    ∃ r c, pxAt m r c = true := by
  unfold hasActive at ha
  rw [Bool.not_eq_true', List.isEmpty_eq_false] at ha
  obtain ⟨⟨r, c⟩, hmem⟩ := List.exists_mem_of_ne_nil _ ha
  exact ⟨r, c, mem_activeCoords.mp hmem⟩

/-- The maximal active row is a legal row index. -/
theorem maxRow_lt {m : Img} (ha : hasActive m = true) : maxRow m < m.length := by
  obtain ⟨r0, c0, h0⟩ := exists_active ha
  have : maxRow m ≤ m.length - 1 := by
    refine natMax_le ?_
    intro x hx
    rw [List.mem_map] at hx
    obtain ⟨⟨r, c⟩, hmem, rfl⟩ := hx
    have := (pxAt_row_bound (mem_activeCoords.mp hmem)).1
    omega
  have h1 := (pxAt_row_bound h0).1
  omega

/-- The maximal active column is a legal column index (for rectangular
masks). -/
theorem maxCol_lt {m : Img} (hrect : ∀ row ∈ m, row.length = width m)
    (ha : hasActive m = true) : maxCol m < width m := by
  obtain ⟨r0, c0, h0⟩ := exists_active ha
  have hcb : ∀ r c : Nat, pxAt m r c = true → c < width m := by
    intro r c h
    obtain ⟨hr, hc⟩ := pxAt_row_bound h
    have hrow : m.getD r [] ∈ m := by
      rw [List.getD_eq_getElem?_getD, List.getElem?_eq_getElem hr]
      exact List.getElem_mem hr
    rw [hrect _ hrow] at hc
    exact hc
  have h1 := hcb r0 c0 h0
  have : maxCol m ≤ width m - 1 := by
    refine natMax_le ?_
    intro x hx
    rw [List.mem_map] at hx
    obtain ⟨⟨r, c⟩, hmem, rfl⟩ := hx
    have := hcb r c (mem_activeCoords.mp hmem)
    omega
  omega

/-- The Python slice with natural endpoints is take-then-drop. -/
theorem pySlice_nat {α : Type} (l : List α) (a b : Nat) :
    pySlice l (a : Int) (b : Int) = (l.take b).drop a := by
  unfold pySlice sliceIdx
  rw [if_neg (by omega), if_neg (by omega)]
  simp only [Int.toNat_natCast]
  have ht : l.take (min b l.length) = l.take b := by
    rcases Nat.le_total b l.length with h | h
    · rw [Nat.min_eq_left h]
    · rw [Nat.min_eq_right h, List.take_length, List.take_of_length_le h]
  rw [ht]
  rcases Nat.le_total a l.length with h | h
  · rw [Nat.min_eq_left h]
  · rw [Nat.min_eq_right h]
    rw [List.drop_eq_nil_of_le (by simp), List.drop_eq_nil_of_le (by simp; omega)]

/-- Length of a slice with endpoints inside the list. -/
theorem slice_length {α : Type} {l : List α} {a b : Nat} (hb : b ≤ l.length) :
    ((l.take b).drop a).length = b - a := by
  rw [List.length_drop, List.length_take, Nat.min_eq_left hb]

/-- Element access through a slice. -/
theorem slice_getElem? {α : Type} {l : List α} {a b i : Nat} (h : a + i < b) :
    ((l.take b).drop a)[i]? = l[a + i]? := by
  rw [List.getElem?_drop, List.getElem?_take_of_lt h]

/-- Claim C4 (amended): for every rectangular mask with at least one
active pixel, the crop of line 186 is the *half-open* bounding box of
the active pixels: its rows run from the minimal active row up to but
excluding the maximal active row, its columns likewise (Python slicing
is end-exclusive), its pixels agree with the mask shifted by the
minima, and the extremal indices really do bound every active pixel. -/
theorem cropBB_tight_halfopen (m : Img)
    (hrect : ∀ row ∈ m, row.length = width m) (ha : hasActive m = true) :
    (cropBB m).length = maxRow m - minRow m ∧
    (∀ row ∈ cropBB m, row.length = maxCol m - minCol m) ∧
    (∀ i j : Nat, i < maxRow m - minRow m → j < maxCol m - minCol m →
      pxAt (cropBB m) i j = pxAt m (minRow m + i) (minCol m + j)) ∧
    (∀ r c : Nat, pxAt m r c = true →
      minRow m ≤ r ∧ r ≤ maxRow m ∧ minCol m ≤ c ∧ c ≤ maxCol m) := by
  have hbR : maxRow m < m.length := maxRow_lt ha
  have hbC : maxCol m < width m := maxCol_lt hrect ha
  refine ⟨?_, ?_, ?_, fun r c h => active_bounds h⟩
  · rw [cropBB, List.length_map, pySlice_nat]
    exact slice_length (Nat.le_of_lt hbR)
  · intro row hrow
    rw [cropBB, List.mem_map] at hrow
    obtain ⟨row0, hrow0, rfl⟩ := hrow
    rw [pySlice_nat] at hrow0
    have hrow0m : row0 ∈ m := List.mem_of_mem_take (List.mem_of_mem_drop hrow0)
    rw [pySlice_nat]
    rw [List.length_drop, List.length_take, hrect _ hrow0m,
      Nat.min_eq_left (Nat.le_of_lt hbC)]
  · intro i j hi hj
    have hidx : minRow m + i < m.length := by omega
    have hrowAcc : (cropBB m).getD i [] = pySlice (m.getD (minRow m + i) []) (minCol m : Int) (maxCol m : Int) := by
      simp only [cropBB, List.getD_eq_getElem?_getD, List.getElem?_map]
      rw [pySlice_nat, slice_getElem? (show minRow m + i < maxRow m by omega),
        List.getElem?_eq_getElem hidx]
      rfl
    have hrowmem : m.getD (minRow m + i) [] ∈ m := by
      rw [List.getD_eq_getElem?_getD, List.getElem?_eq_getElem (by omega : minRow m + i < m.length)]
      exact List.getElem_mem _
    unfold pxAt
    rw [hrowAcc, pySlice_nat, List.getD_eq_getElem?_getD,
      slice_getElem? (by omega), ← List.getD_eq_getElem?_getD]

/-- Witness for C4 (amended): the 2x2 mask with three active pixels has
the half-open crop `[[false]]` (only row 0 and column 0 survive). -/
theorem cropBB_tight_halfopen_witness :
    (cropBB [[false, true], [true, true]]).length =
      maxRow [[false, true], [true, true]] - minRow [[false, true], [true, true]] ∧
    (∀ row ∈ cropBB [[false, true], [true, true]],
      row.length = maxCol [[false, true], [true, true]] - minCol [[false, true], [true, true]]) ∧
    (∀ i j : Nat,
      i < maxRow [[false, true], [true, true]] - minRow [[false, true], [true, true]] →
      j < maxCol [[false, true], [true, true]] - minCol [[false, true], [true, true]] →
      pxAt (cropBB [[false, true], [true, true]]) i j =
        pxAt [[false, true], [true, true]]
          (minRow [[false, true], [true, true]] + i)
          (minCol [[false, true], [true, true]] + j)) ∧
    (∀ r c : Nat, pxAt [[false, true], [true, true]] r c = true →
      minRow [[false, true], [true, true]] ≤ r ∧
      r ≤ maxRow [[false, true], [true, true]] ∧
      minCol [[false, true], [true, true]] ≤ c ∧
      c ≤ maxCol [[false, true], [true, true]]) :=
  cropBB_tight_halfopen [[false, true], [true, true]] (by decide) (by decide)

/-- Counterexample to C4: in the one-column mask with both pixels
active, the pixel `(1, 0)` is active, yet the crop
`thres[min:max, min:max] = thres[0:1, 0:0]` is the single empty row
`[[]]` — the maximal active row and column are excluded by the
end-exclusive Python slice, so not every active pixel lies inside the
crop and the crop does not reach the maximal coordinates. -/
theorem cropBB_excludes_max_cex :
    pxAt [[true], [true]] 1 0 = true ∧ cropBB [[true], [true]] = [[]] :=
  ⟨rfl, rfl⟩

/-! ## Claim C6: leading-symbol trimming -/

/-- Claim C6: on every six-symbol decoded sequence, the assembler drops
the first symbol iff that first symbol is Unmatched (`None`), leaving
the tail unchanged; in particular a leading `-` symbol is retained. -/
theorem trimLeading_first_only (l : List (Option Char)) (h6 : l.length = 6) :
    trimLeading l = (if l.head? = some none then l.tail else l) ∧
    (∀ c : Char, l.head? = some (some c) → trimLeading l = l) := by
  cases l with
  | nil => simp at h6
  | cons x xs => cases x <;> simp [trimLeading]

/-- Witness for C6: a leading `-` symbol is retained by the trim. -/
theorem trimLeading_first_only_witness :
    trimLeading [some '-', some '0', some '5', some '1', some '2', some '3'] =
      [some '-', some '0', some '5', some '1', some '2', some '3'] :=
  (trimLeading_first_only
    [some '-', some '0', some '5', some '1', some '2', some '3'] rfl).2 '-' rfl

end LaserDisplay
